import Mathlib

/-!
Verification of the Black-Scholes option pricer `MyModelBlackSholes.py`.

The two pricing functions are embedded over the real numbers.  Python's
fallible arithmetic is made explicit: `math.log` raises `ValueError` on a
non-positive argument, `math.sqrt` raises `ValueError` on a negative
argument, and float division raises `ZeroDivisionError` on a zero
denominator, so each pricing function returns `Except PyErr ℝ`.
`scipy.stats.norm.cdf` is an external statistical primitive; it is modelled
as the exact standard normal cumulative distribution function.
-/

open MeasureTheory Real Set intervalIntegral

namespace BlackScholes

/-- The Python runtime errors the arithmetic in the source can raise. -/
inductive PyErr where
  | valueError : PyErr
  | zeroDivisionError : PyErr
deriving DecidableEq

/-- Python float division `x / y`; raises `ZeroDivisionError` when `y = 0`. -/
noncomputable def pydiv (x y : ℝ) : Except PyErr ℝ :=
  if y = 0 then .error .zeroDivisionError else .ok (x / y)

/-- Python `math.log`; raises `ValueError` (math domain error) unless `0 < x`. -/
noncomputable def pylog (x : ℝ) : Except PyErr ℝ :=
  if 0 < x then .ok (Real.log x) else .error .valueError

/-- Python `math.sqrt`; raises `ValueError` when `x < 0`. -/
noncomputable def pysqrt (x : ℝ) : Except PyErr ℝ :=
  if 0 ≤ x then .ok (Real.sqrt x) else .error .valueError

/-- The Gaussian kernel `exp (-t^2 / 2)`. -/
noncomputable def gauss (t : ℝ) : ℝ := Real.exp (-t ^ 2 / 2)

/-- Model of `scipy.stats.norm.cdf`, the exact standard normal CDF
`Φ(x) = (2π)^(-1/2) · ∫_{-∞}^{x} exp(-t²/2) dt` (spec §4.1 treats Φ as an
external mathematical primitive). -/
noncomputable def normCdf (x : ℝ) : ℝ :=
  (Real.sqrt (2 * π))⁻¹ * ∫ t in Iic x, gauss t

/-- The standard normal density, the derivative of `normCdf`. -/
noncomputable def npdf (x : ℝ) : ℝ := (Real.sqrt (2 * π))⁻¹ * gauss x

/-- The `d1`/`d2` block of `calculate_call_option_price`
(source lines 17–19), with Python's error cases explicit. -/
noncomputable def call_d1_d2 (stock_price strike_price time_to_maturity
    risk_free_rate volatility : ℝ) : Except PyErr (ℝ × ℝ) := do
  let ratio ← pydiv stock_price strike_price
  let lg ← pylog ratio
  let rt ← pysqrt time_to_maturity
  let d1 ← pydiv (lg + (risk_free_rate + 0.5 * volatility ^ 2) * time_to_maturity)
      (volatility * rt)
  let rt2 ← pysqrt time_to_maturity
  let d2 := d1 - volatility * rt2
  return (d1, d2)

/-- The `d1`/`d2` block of `calculate_put_option_price`
(source lines 39–41); a verbatim duplicate of the block in the call
function. -/
noncomputable def put_d1_d2 (stock_price strike_price time_to_maturity
    risk_free_rate volatility : ℝ) : Except PyErr (ℝ × ℝ) := do
  let ratio ← pydiv stock_price strike_price
  let lg ← pylog ratio
  let rt ← pysqrt time_to_maturity
  let d1 ← pydiv (lg + (risk_free_rate + 0.5 * volatility ^ 2) * time_to_maturity)
      (volatility * rt)
  let rt2 ← pysqrt time_to_maturity
  let d2 := d1 - volatility * rt2
  return (d1, d2)

/-- Embedding of `calculate_call_option_price` (source lines 5–24). -/
noncomputable def calculate_call_option_price (stock_price strike_price
    time_to_maturity risk_free_rate volatility : ℝ) : Except PyErr ℝ := do
  let d ← call_d1_d2 stock_price strike_price time_to_maturity risk_free_rate volatility
  return stock_price * normCdf d.1 -
    strike_price * Real.exp (-risk_free_rate * time_to_maturity) * normCdf d.2

/-- Embedding of `calculate_put_option_price` (source lines 27–47). -/
noncomputable def calculate_put_option_price (stock_price strike_price
    time_to_maturity risk_free_rate volatility : ℝ) : Except PyErr ℝ := do
  let d ← put_d1_d2 stock_price strike_price time_to_maturity risk_free_rate volatility
  return strike_price * Real.exp (-risk_free_rate * time_to_maturity) * normCdf (-d.2) -
    stock_price * normCdf (-d.1)

/-- The spec's `d1` (spec §4.1). -/
noncomputable def spec_d1 (S K T r σ : ℝ) : ℝ :=
  (Real.log (S / K) + (r + 0.5 * σ ^ 2) * T) / (σ * Real.sqrt T)

/-- The spec's `d2` (spec §4.1). -/
noncomputable def spec_d2 (S K T r σ : ℝ) : ℝ :=
  spec_d1 S K T r σ - σ * Real.sqrt T

/-- The spec's call price `S·Φ(d1) − K·e^(−rT)·Φ(d2)` (spec §4.1). -/
noncomputable def spec_call (S K T r σ : ℝ) : ℝ :=
  S * normCdf (spec_d1 S K T r σ) -
    K * Real.exp (-r * T) * normCdf (spec_d2 S K T r σ)

/-- The spec's put price `K·e^(−rT)·Φ(−d2) − S·Φ(−d1)` (spec §4.1). -/
noncomputable def spec_put (S K T r σ : ℝ) : ℝ :=
  K * Real.exp (-r * T) * normCdf (-spec_d2 S K T r σ) -
    S * normCdf (-spec_d1 S K T r σ)

/-! ### Basic facts about the Gaussian kernel and `normCdf` -/

theorem gauss_pos (t : ℝ) : 0 < gauss t := Real.exp_pos _

theorem gauss_nonneg (t : ℝ) : 0 ≤ gauss t := (gauss_pos t).le

theorem gauss_fun_eq : gauss = fun t : ℝ => Real.exp (-(1 / 2 : ℝ) * t ^ 2) := by
  funext t
  unfold gauss
  ring_nf

theorem continuous_gauss : Continuous gauss := by
  unfold gauss
  fun_prop

theorem integrable_gauss : Integrable gauss := by
  rw [gauss_fun_eq]
  exact integrable_exp_neg_mul_sq (by norm_num)

theorem integral_gauss_total : (∫ t : ℝ, gauss t) = Real.sqrt (2 * π) := by
  rw [gauss_fun_eq]
  rw [integral_gaussian]
  rw [show π / (1 / 2 : ℝ) = 2 * π by ring]

theorem gauss_neg (t : ℝ) : gauss (-t) = gauss t := by
  unfold gauss
  rw [neg_pow]
  norm_num

theorem sqrt_two_pi_pos : 0 < Real.sqrt (2 * π) :=
  Real.sqrt_pos.mpr (by positivity)

theorem integral_Iic_gauss_add_neg (x : ℝ) :
    (∫ t in Iic x, gauss t) + (∫ t in Iic (-x), gauss t) = Real.sqrt (2 * π) := by
  have h1 : (∫ t in Iic (-x), gauss t) = ∫ t in Ioi x, gauss t := by
    rw [← integral_comp_neg_Ioi]
    refine setIntegral_congr_fun measurableSet_Ioi fun t _ => ?_
    rw [gauss_neg]
  rw [h1, integral_Iic_add_Ioi integrable_gauss.integrableOn integrable_gauss.integrableOn,
    integral_gauss_total]

theorem normCdf_add_neg (x : ℝ) : normCdf x + normCdf (-x) = 1 := by
  unfold normCdf
  rw [← mul_add, integral_Iic_gauss_add_neg]
  exact inv_mul_cancel₀ sqrt_two_pi_pos.ne'

theorem normCdf_nonneg (x : ℝ) : 0 ≤ normCdf x := by
  unfold normCdf
  refine mul_nonneg (inv_nonneg.mpr sqrt_two_pi_pos.le) ?_
  exact setIntegral_nonneg measurableSet_Iic fun t _ => gauss_nonneg t

theorem normCdf_pos (x : ℝ) : 0 < normCdf x := by
  unfold normCdf
  refine mul_pos (inv_pos.mpr sqrt_two_pi_pos) ?_
  rw [setIntegral_pos_iff_support_of_nonneg_ae
    (Filter.Eventually.of_forall fun t => gauss_nonneg t) integrable_gauss.integrableOn]
  have hsupp : Function.support gauss = univ := by
    ext t
    simp [Function.mem_support, (gauss_pos t).ne']
  rw [hsupp, univ_inter, Real.volume_Iic]
  simp

theorem normCdf_le_one (x : ℝ) : normCdf x ≤ 1 := by
  have h := normCdf_add_neg x
  have h2 := normCdf_nonneg (-x)
  linarith

theorem normCdf_lt_one (x : ℝ) : normCdf x < 1 := by
  have h := normCdf_add_neg x
  have h2 := normCdf_pos (-x)
  linarith

theorem normCdf_mono : Monotone normCdf := by
  intro x y hxy
  unfold normCdf
  refine mul_le_mul_of_nonneg_left ?_ (inv_nonneg.mpr sqrt_two_pi_pos.le)
  refine setIntegral_mono_set integrable_gauss.integrableOn
    (Filter.Eventually.of_forall fun t => gauss_nonneg t) ?_
  exact Filter.Eventually.of_forall (Iic_subset_Iic.mpr hxy)

theorem normCdf_zero : normCdf 0 = 1 / 2 := by
  have h := normCdf_add_neg 0
  rw [neg_zero] at h
  linarith

theorem npdf_pos (x : ℝ) : 0 < npdf x :=
  mul_pos (inv_pos.mpr sqrt_two_pi_pos) (gauss_pos x)

theorem npdf_neg (x : ℝ) : npdf (-x) = npdf x := by
  unfold npdf
  rw [gauss_neg]

/-! ### Evaluation of the embedded Python functions on valid inputs -/

theorem except_bind_ok {α β : Type} (a : α) (f : α → Except PyErr β) :
    (Except.ok a >>= f : Except PyErr β) = f a := rfl

theorem except_bind_error {α β : Type} (e : PyErr) (f : α → Except PyErr β) :
    (Except.error e >>= f : Except PyErr β) = Except.error e := rfl

theorem except_pure_eq_ok {α : Type} (a : α) :
    (pure a : Except PyErr α) = Except.ok a := rfl

theorem call_d1_d2_eval (S K T r σ : ℝ) (hS : 0 < S) (hK : 0 < K) (hT : 0 < T)
    (hσ : 0 < σ) :
    call_d1_d2 S K T r σ = Except.ok (spec_d1 S K T r σ, spec_d2 S K T r σ) := by
  have hKne : K ≠ 0 := hK.ne'
  have hratio : 0 < S / K := div_pos hS hK
  have hden : σ * Real.sqrt T ≠ 0 := (mul_pos hσ (Real.sqrt_pos.mpr hT)).ne'
  simp only [call_d1_d2, pydiv, pylog, pysqrt, if_neg hKne, if_pos hratio,
    if_pos hT.le, if_neg hden, except_bind_ok, except_pure_eq_ok]
  rfl

theorem put_d1_d2_eval (S K T r σ : ℝ) (hS : 0 < S) (hK : 0 < K) (hT : 0 < T)
    (hσ : 0 < σ) :
    put_d1_d2 S K T r σ = Except.ok (spec_d1 S K T r σ, spec_d2 S K T r σ) := by
  have hKne : K ≠ 0 := hK.ne'
  have hratio : 0 < S / K := div_pos hS hK
  have hden : σ * Real.sqrt T ≠ 0 := (mul_pos hσ (Real.sqrt_pos.mpr hT)).ne'
  simp only [put_d1_d2, pydiv, pylog, pysqrt, if_neg hKne, if_pos hratio,
    if_pos hT.le, if_neg hden, except_bind_ok, except_pure_eq_ok]
  rfl

theorem call_eval (S K T r σ : ℝ) (hS : 0 < S) (hK : 0 < K) (hT : 0 < T)
    (hσ : 0 < σ) :
    calculate_call_option_price S K T r σ = Except.ok (spec_call S K T r σ) := by
  simp only [calculate_call_option_price, call_d1_d2_eval S K T r σ hS hK hT hσ,
    except_bind_ok]
  rfl

theorem put_eval (S K T r σ : ℝ) (hS : 0 < S) (hK : 0 < K) (hT : 0 < T)
    (hσ : 0 < σ) :
    calculate_put_option_price S K T r σ = Except.ok (spec_put S K T r σ) := by
  simp only [calculate_put_option_price, put_d1_d2_eval S K T r σ hS hK hT hσ,
    except_bind_ok]
  rfl

/-! ### The derivative of `normCdf` and the Mills-ratio monotonicity -/

theorem integral_Iic_gauss_split (x : ℝ) :
    (∫ t in Iic x, gauss t) =
      (∫ t in Iic (0 : ℝ), gauss t) + ∫ t in (0 : ℝ)..x, gauss t := by
  have h := integral_Iic_sub_Iic
    (integrable_gauss.integrableOn (s := Iic (0 : ℝ)))
    (integrable_gauss.integrableOn (s := Iic x))
  linarith

theorem normCdf_eq_interval (x : ℝ) :
    normCdf x = 1 / 2 + (Real.sqrt (2 * π))⁻¹ * ∫ t in (0 : ℝ)..x, gauss t := by
  have h0 := normCdf_zero
  unfold normCdf at h0 ⊢
  rw [integral_Iic_gauss_split, mul_add, h0]

theorem hasDerivAt_normCdf (x : ℝ) : HasDerivAt normCdf (npdf x) x := by
  have h : HasDerivAt (fun u => ∫ t in (0 : ℝ)..u, gauss t) (gauss x) x :=
    intervalIntegral.integral_hasDerivAt_right
      (continuous_gauss.intervalIntegrable 0 x)
      continuous_gauss.aestronglyMeasurable.stronglyMeasurableAtFilter
      continuous_gauss.continuousAt
  have h2 := (h.const_mul ((Real.sqrt (2 * π))⁻¹)).const_add (1 / 2 : ℝ)
  have hfun : normCdf =
      fun u => 1 / 2 + (Real.sqrt (2 * π))⁻¹ * ∫ t in (0 : ℝ)..u, gauss t :=
    funext normCdf_eq_interval
  rw [hfun]
  exact h2

theorem hasDerivAt_gauss (t : ℝ) : HasDerivAt gauss (-t * gauss t) t := by
  have h1 : HasDerivAt (fun u : ℝ => -u ^ 2 / 2) (-t) t := by
    have h := ((hasDerivAt_pow 2 t).neg).div_const 2
    convert h using 1
    push_cast
    ring
  have h2 := (Real.hasDerivAt_exp (-t ^ 2 / 2)).comp t h1
  have hfun : gauss = Real.exp ∘ fun u : ℝ => -u ^ 2 / 2 := rfl
  rw [hfun]
  convert h2 using 1
  simp only [Function.comp_apply]
  ring

theorem hasDerivAt_npdf (x : ℝ) : HasDerivAt npdf (-x * npdf x) x := by
  have h := (hasDerivAt_gauss x).const_mul ((Real.sqrt (2 * π))⁻¹)
  have hfun : npdf = fun y => (Real.sqrt (2 * π))⁻¹ * gauss y := rfl
  rw [hfun]
  convert h using 1
  simp only
  ring

theorem tendsto_gauss_atBot : Filter.Tendsto gauss Filter.atBot (nhds 0) := by
  have hg : ∀ᶠ t in Filter.atBot, gauss t ≤ Real.exp t := by
    rw [Filter.eventually_atBot]
    refine ⟨-2, fun t ht => ?_⟩
    unfold gauss
    exact Real.exp_le_exp.mpr (by nlinarith)
  have h0 : ∀ᶠ t in Filter.atBot, (0 : ℝ) ≤ gauss t :=
    Filter.Eventually.of_forall fun t => gauss_nonneg t
  have hz : Filter.Tendsto (fun _ : ℝ => (0 : ℝ)) Filter.atBot (nhds 0) :=
    tendsto_const_nhds
  exact tendsto_of_tendsto_of_tendsto_of_le_of_le' hz Real.tendsto_exp_atBot h0 hg

theorem integrable_neg_mul_gauss : Integrable (fun t : ℝ => -t * gauss t) := by
  have h : Integrable (fun t : ℝ => -(t * Real.exp (-(1 / 2 : ℝ) * t ^ 2))) :=
    (integrable_mul_exp_neg_mul_sq (by norm_num)).neg
  have hfun : (fun t : ℝ => -t * gauss t) =
      fun t : ℝ => -(t * Real.exp (-(1 / 2 : ℝ) * t ^ 2)) := by
    funext t
    rw [gauss_fun_eq]
    ring
  rw [hfun]
  exact h

theorem integral_Iic_neg_mul_gauss (x : ℝ) :
    (∫ t in Iic x, -t * gauss t) = gauss x := by
  have h : (∫ t in Iic x, -t * gauss t) = gauss x - 0 :=
    MeasureTheory.integral_Iic_of_hasDerivAt_of_tendsto'
      (fun t _ => hasDerivAt_gauss t) integrable_neg_mul_gauss.integrableOn
      tendsto_gauss_atBot
  simpa using h

theorem gauss_tail_bound (x : ℝ) (_hx : x < 0) :
    -x * ∫ t in Iic x, gauss t ≤ gauss x := by
  rw [← integral_Iic_neg_mul_gauss x, ← integral_mul_left]
  refine setIntegral_mono_on ((integrable_gauss.const_mul _).integrableOn)
    integrable_neg_mul_gauss.integrableOn measurableSet_Iic fun t ht => ?_
  have htx : t ≤ x := ht
  exact mul_le_mul_of_nonneg_right (by linarith) (gauss_nonneg t)

theorem mills_numer_nonneg (x : ℝ) : 0 ≤ npdf x + x * normCdf x := by
  rcases le_or_lt 0 x with hx | hx
  · have h1 := npdf_pos x
    have h2 := normCdf_nonneg x
    nlinarith
  · have h := gauss_tail_bound x hx
    have hc : (0 : ℝ) < (Real.sqrt (2 * π))⁻¹ := inv_pos.mpr sqrt_two_pi_pos
    have h2 := mul_le_mul_of_nonneg_left h hc.le
    unfold npdf normCdf
    nlinarith [h2]

theorem millsRatio_mono : Monotone (fun x => normCdf x / npdf x) := by
  apply monotone_of_deriv_nonneg
  · intro x
    exact ((hasDerivAt_normCdf x).div (hasDerivAt_npdf x)
      (npdf_pos x).ne').differentiableAt
  · intro x
    have h := (hasDerivAt_normCdf x).div (hasDerivAt_npdf x) (npdf_pos x).ne'
    rw [h.deriv]
    have hnum : npdf x * npdf x - normCdf x * (-x * npdf x) =
        npdf x * (npdf x + x * normCdf x) := by ring
    rw [hnum]
    exact div_nonneg (mul_nonneg (npdf_pos x).le (mills_numer_nonneg x)) (sq_nonneg _)

theorem mills_mono (x y : ℝ) (hxy : x ≤ y) :
    normCdf x * npdf y ≤ normCdf y * npdf x := by
  have h := millsRatio_mono hxy
  simp only at h
  rwa [div_le_div_iff₀ (npdf_pos x) (npdf_pos y)] at h

/-! ### Spec-level Black-Scholes lemmas -/

theorem spec_parity (S K T r σ : ℝ) :
    spec_call S K T r σ - spec_put S K T r σ = S - K * Real.exp (-r * T) := by
  unfold spec_call spec_put
  linear_combination S * normCdf_add_neg (spec_d1 S K T r σ) -
    K * Real.exp (-r * T) * normCdf_add_neg (spec_d2 S K T r σ)

theorem spec_d2_le_d1 (S K T r σ : ℝ) (hT : 0 < T) (hσ : 0 < σ) :
    spec_d2 S K T r σ ≤ spec_d1 S K T r σ := by
  have ha : 0 < σ * Real.sqrt T := mul_pos hσ (Real.sqrt_pos.mpr hT)
  unfold spec_d2
  linarith

/-- The classical identity `S·φ(d1) = K·e^(−rT)·φ(d2)` behind the Black-Scholes
delta computation. -/
theorem key_identity (S K T r σ : ℝ) (hS : 0 < S) (hK : 0 < K) (hT : 0 < T)
    (hσ : 0 < σ) :
    S * npdf (spec_d1 S K T r σ) =
      K * Real.exp (-r * T) * npdf (spec_d2 S K T r σ) := by
  have ha : 0 < σ * Real.sqrt T := mul_pos hσ (Real.sqrt_pos.mpr hT)
  have ha2 : (σ * Real.sqrt T) ^ 2 = σ ^ 2 * T := by
    rw [mul_pow, Real.sq_sqrt hT.le]
  have had1 : σ * Real.sqrt T * spec_d1 S K T r σ
      = Real.log (S / K) + (r + 0.5 * σ ^ 2) * T := by
    unfold spec_d1
    field_simp
  have hdiff : spec_d1 S K T r σ ^ 2 - spec_d2 S K T r σ ^ 2
      = 2 * Real.log (S / K) + 2 * r * T := by
    have expand : spec_d1 S K T r σ ^ 2 - spec_d2 S K T r σ ^ 2
        = 2 * (σ * Real.sqrt T * spec_d1 S K T r σ) - (σ * Real.sqrt T) ^ 2 := by
      unfold spec_d2
      ring
    rw [expand, had1, ha2]
    ring
  have hSK : K * Real.exp (Real.log (S / K)) = S := by
    rw [Real.exp_log (div_pos hS hK)]
    field_simp
  have main : S * Real.exp (-spec_d1 S K T r σ ^ 2 / 2)
      = K * Real.exp (-r * T) * Real.exp (-spec_d2 S K T r σ ^ 2 / 2) := by
    calc S * Real.exp (-spec_d1 S K T r σ ^ 2 / 2)
        = K * Real.exp (Real.log (S / K)) * Real.exp (-spec_d1 S K T r σ ^ 2 / 2) := by
          rw [hSK]
      _ = K * Real.exp (Real.log (S / K) + -spec_d1 S K T r σ ^ 2 / 2) := by
          rw [Real.exp_add]
          ring
      _ = K * Real.exp (-r * T + -spec_d2 S K T r σ ^ 2 / 2) := by
          rw [show Real.log (S / K) + -spec_d1 S K T r σ ^ 2 / 2
            = -r * T + -spec_d2 S K T r σ ^ 2 / 2 from by linarith]
      _ = K * Real.exp (-r * T) * Real.exp (-spec_d2 S K T r σ ^ 2 / 2) := by
          rw [Real.exp_add]
          ring
  unfold npdf gauss
  linear_combination (Real.sqrt (2 * π))⁻¹ * main

theorem spec_call_nonneg (S K T r σ : ℝ) (hS : 0 < S) (hK : 0 < K) (hT : 0 < T)
    (hσ : 0 < σ) : 0 ≤ spec_call S K T r σ := by
  have key := key_identity S K T r σ hS hK hT hσ
  have hm := mills_mono _ _ (spec_d2_le_d1 S K T r σ hT hσ)
  have hC : 0 < K * Real.exp (-r * T) := by positivity
  have h1 := npdf_pos (spec_d1 S K T r σ)
  have step : K * Real.exp (-r * T) * normCdf (spec_d2 S K T r σ) *
      npdf (spec_d1 S K T r σ) ≤
      S * normCdf (spec_d1 S K T r σ) * npdf (spec_d1 S K T r σ) := by
    calc K * Real.exp (-r * T) * normCdf (spec_d2 S K T r σ) * npdf (spec_d1 S K T r σ)
        = K * Real.exp (-r * T) *
            (normCdf (spec_d2 S K T r σ) * npdf (spec_d1 S K T r σ)) := by ring
      _ ≤ K * Real.exp (-r * T) *
            (normCdf (spec_d1 S K T r σ) * npdf (spec_d2 S K T r σ)) :=
          mul_le_mul_of_nonneg_left hm hC.le
      _ = normCdf (spec_d1 S K T r σ) *
            (K * Real.exp (-r * T) * npdf (spec_d2 S K T r σ)) := by ring
      _ = normCdf (spec_d1 S K T r σ) * (S * npdf (spec_d1 S K T r σ)) := by rw [← key]
      _ = S * normCdf (spec_d1 S K T r σ) * npdf (spec_d1 S K T r σ) := by ring
  have hfinal := (mul_le_mul_right h1).mp step
  unfold spec_call
  linarith

theorem spec_put_nonneg (S K T r σ : ℝ) (hS : 0 < S) (hK : 0 < K) (hT : 0 < T)
    (hσ : 0 < σ) : 0 ≤ spec_put S K T r σ := by
  have key := key_identity S K T r σ hS hK hT hσ
  have hm := mills_mono (-spec_d1 S K T r σ) (-spec_d2 S K T r σ)
    (neg_le_neg (spec_d2_le_d1 S K T r σ hT hσ))
  rw [npdf_neg, npdf_neg] at hm
  have h2 := npdf_pos (spec_d2 S K T r σ)
  have step : S * normCdf (-spec_d1 S K T r σ) * npdf (spec_d2 S K T r σ) ≤
      K * Real.exp (-r * T) * normCdf (-spec_d2 S K T r σ) *
        npdf (spec_d2 S K T r σ) := by
    calc S * normCdf (-spec_d1 S K T r σ) * npdf (spec_d2 S K T r σ)
        = S * (normCdf (-spec_d1 S K T r σ) * npdf (spec_d2 S K T r σ)) := by ring
      _ ≤ S * (normCdf (-spec_d2 S K T r σ) * npdf (spec_d1 S K T r σ)) :=
          mul_le_mul_of_nonneg_left hm hS.le
      _ = normCdf (-spec_d2 S K T r σ) * (S * npdf (spec_d1 S K T r σ)) := by ring
      _ = normCdf (-spec_d2 S K T r σ) *
            (K * Real.exp (-r * T) * npdf (spec_d2 S K T r σ)) := by rw [key]
      _ = K * Real.exp (-r * T) * normCdf (-spec_d2 S K T r σ) *
            npdf (spec_d2 S K T r σ) := by ring
  have hfinal := (mul_le_mul_right h2).mp step
  unfold spec_put
  linarith

theorem spec_call_hasDerivAt (S K T r σ : ℝ) (hS : 0 < S) (hK : 0 < K)
    (hT : 0 < T) (hσ : 0 < σ) :
    HasDerivAt (fun s => spec_call s K T r σ) (normCdf (spec_d1 S K T r σ)) S := by
  have ha : 0 < σ * Real.sqrt T := mul_pos hσ (Real.sqrt_pos.mpr hT)
  have hlog : HasDerivAt (fun s : ℝ => Real.log (s / K)) S⁻¹ S := by
    have h1 : HasDerivAt (fun s : ℝ => s / K) (1 / K) S := by
      simpa using (hasDerivAt_id S).div_const K
    have h2 := (Real.hasDerivAt_log (div_pos hS hK).ne').comp S h1
    have h2' : HasDerivAt (fun s : ℝ => Real.log (s / K)) ((S / K)⁻¹ * (1 / K)) S := h2
    have h3 : (S / K)⁻¹ * (1 / K) = S⁻¹ := by
      field_simp
      ring
    rwa [h3] at h2'
  have hd1 : HasDerivAt (fun s => spec_d1 s K T r σ) (S⁻¹ / (σ * Real.sqrt T)) S := by
    have h := (hlog.add_const ((r + 0.5 * σ ^ 2) * T)).div_const (σ * Real.sqrt T)
    exact h
  have hd2 : HasDerivAt (fun s => spec_d2 s K T r σ) (S⁻¹ / (σ * Real.sqrt T)) S :=
    hd1.sub_const (σ * Real.sqrt T)
  have hΦ1 : HasDerivAt (fun s => normCdf (spec_d1 s K T r σ))
      (npdf (spec_d1 S K T r σ) * (S⁻¹ / (σ * Real.sqrt T))) S :=
    (hasDerivAt_normCdf (spec_d1 S K T r σ)).comp S hd1
  have hΦ2 : HasDerivAt (fun s => normCdf (spec_d2 s K T r σ))
      (npdf (spec_d2 S K T r σ) * (S⁻¹ / (σ * Real.sqrt T))) S :=
    (hasDerivAt_normCdf (spec_d2 S K T r σ)).comp S hd2
  have hterm1 : HasDerivAt (fun s => s * normCdf (spec_d1 s K T r σ))
      (1 * normCdf (spec_d1 S K T r σ) +
        S * (npdf (spec_d1 S K T r σ) * (S⁻¹ / (σ * Real.sqrt T)))) S :=
    (hasDerivAt_id S).mul hΦ1
  have hterm2 : HasDerivAt
      (fun s => K * Real.exp (-r * T) * normCdf (spec_d2 s K T r σ))
      (K * Real.exp (-r * T) *
        (npdf (spec_d2 S K T r σ) * (S⁻¹ / (σ * Real.sqrt T)))) S :=
    hΦ2.const_mul (K * Real.exp (-r * T))
  have hsum := hterm1.sub hterm2
  have key := key_identity S K T r σ hS hK hT hσ
  have hval : 1 * normCdf (spec_d1 S K T r σ) +
      S * (npdf (spec_d1 S K T r σ) * (S⁻¹ / (σ * Real.sqrt T))) -
      K * Real.exp (-r * T) *
        (npdf (spec_d2 S K T r σ) * (S⁻¹ / (σ * Real.sqrt T)))
      = normCdf (spec_d1 S K T r σ) := by
    have e2 : K * Real.exp (-r * T) *
        (npdf (spec_d2 S K T r σ) * (S⁻¹ / (σ * Real.sqrt T)))
        = S * (npdf (spec_d1 S K T r σ) * (S⁻¹ / (σ * Real.sqrt T))) := by
      calc K * Real.exp (-r * T) *
          (npdf (spec_d2 S K T r σ) * (S⁻¹ / (σ * Real.sqrt T)))
          = K * Real.exp (-r * T) * npdf (spec_d2 S K T r σ) *
            (S⁻¹ / (σ * Real.sqrt T)) := by ring
        _ = S * npdf (spec_d1 S K T r σ) * (S⁻¹ / (σ * Real.sqrt T)) := by rw [← key]
        _ = S * (npdf (spec_d1 S K T r σ) * (S⁻¹ / (σ * Real.sqrt T))) := by ring
    rw [e2]
    ring
  exact hval ▸ hsum

theorem spec_call_monotoneOn (K T r σ : ℝ) (hK : 0 < K) (hT : 0 < T) (hσ : 0 < σ) :
    MonotoneOn (fun s => spec_call s K T r σ) (Ioi (0 : ℝ)) := by
  apply monotoneOn_of_deriv_nonneg (convex_Ioi 0)
  · intro s hs
    exact (spec_call_hasDerivAt s K T r σ hs hK hT hσ).continuousAt.continuousWithinAt
  · intro s hs
    rw [interior_Ioi] at hs
    exact (spec_call_hasDerivAt s K T r σ hs hK hT hσ).differentiableAt.differentiableWithinAt
  · intro s hs
    rw [interior_Ioi] at hs
    rw [(spec_call_hasDerivAt s K T r σ hs hK hT hσ).deriv]
    exact normCdf_nonneg _

theorem spec_call_lipschitz_part (K T r σ : ℝ) (hK : 0 < K) (hT : 0 < T)
    (hσ : 0 < σ) :
    MonotoneOn (fun s => s - spec_call s K T r σ) (Ioi (0 : ℝ)) := by
  apply monotoneOn_of_deriv_nonneg (convex_Ioi 0)
  · intro s hs
    exact ((hasDerivAt_id s).sub
      (spec_call_hasDerivAt s K T r σ hs hK hT hσ)).continuousAt.continuousWithinAt
  · intro s hs
    rw [interior_Ioi] at hs
    exact ((hasDerivAt_id s).sub
      (spec_call_hasDerivAt s K T r σ hs hK hT hσ)).differentiableAt.differentiableWithinAt
  · intro s hs
    rw [interior_Ioi] at hs
    have hd : HasDerivAt (fun x : ℝ => x - spec_call x K T r σ)
        (1 - normCdf (spec_d1 s K T r σ)) s :=
      (hasDerivAt_id s).sub (spec_call_hasDerivAt s K T r σ hs hK hT hσ)
    rw [hd.deriv]
    have := normCdf_le_one (spec_d1 s K T r σ)
    linarith

theorem spec_call_mono (S1 S2 K T r σ : ℝ) (hK : 0 < K) (hT : 0 < T) (hσ : 0 < σ)
    (hS1 : 0 < S1) (h12 : S1 ≤ S2) :
    spec_call S1 K T r σ ≤ spec_call S2 K T r σ :=
  spec_call_monotoneOn K T r σ hK hT hσ hS1 (lt_of_lt_of_le hS1 h12) h12

theorem spec_put_antitone (S1 S2 K T r σ : ℝ) (hK : 0 < K) (hT : 0 < T)
    (hσ : 0 < σ) (hS1 : 0 < S1) (h12 : S1 ≤ S2) :
    spec_put S2 K T r σ ≤ spec_put S1 K T r σ := by
  have hS2 : 0 < S2 := lt_of_lt_of_le hS1 h12
  have hp1 := spec_parity S1 K T r σ
  have hp2 := spec_parity S2 K T r σ
  have hlip := spec_call_lipschitz_part K T r σ hK hT hσ hS1 hS2 h12
  simp only at hlip
  linarith

/-! ### Numeric bounds for the concrete reference scenario -/

theorem sqrt_two_pi_lb : (2.506627 : ℝ) < Real.sqrt (2 * π) := by
  rw [Real.lt_sqrt (by norm_num)]
  nlinarith [Real.pi_gt_d6]

theorem sqrt_two_pi_ub : Real.sqrt (2 * π) < (2.50663 : ℝ) := by
  rw [Real.sqrt_lt' (by norm_num)]
  nlinarith [Real.pi_lt_d6]

/-- Degree-3 Taylor approximation of `exp` with an explicit remainder bound. -/
theorem exp_approx (x : ℝ) (hx : |x| ≤ 1) :
    |Real.exp x - (1 + x + x ^ 2 / 2 + x ^ 3 / 6)| ≤ |x| ^ 4 * (5 / 96) := by
  have h := Real.exp_bound hx (n := 4) (by norm_num)
  have hsum : (∑ m ∈ Finset.range 4, x ^ m / m.factorial)
      = 1 + x + x ^ 2 / 2 + x ^ 3 / 6 := by
    rw [Finset.sum_range_succ, Finset.sum_range_succ, Finset.sum_range_succ,
      Finset.sum_range_one]
    norm_num [Nat.factorial]
  rw [hsum] at h
  have hc : ((4 : ℕ).succ / ((4 : ℕ).factorial * (4 : ℕ)) : ℝ) = 5 / 96 := by
    norm_num [Nat.factorial]
  calc |Real.exp x - (1 + x + x ^ 2 / 2 + x ^ 3 / 6)|
      ≤ |x| ^ 4 * ((4 : ℕ).succ / ((4 : ℕ).factorial * (4 : ℕ))) := h
    _ = |x| ^ 4 * (5 / 96) := by rw [hc]

theorem exp_neg_twentieth_bounds :
    (0.951228 : ℝ) ≤ Real.exp (-(1 / 20)) ∧ Real.exp (-(1 / 20)) ≤ (0.951230 : ℝ) := by
  have h := exp_approx (-(1 / 20)) (by rw [abs_le]; constructor <;> norm_num)
  rw [abs_le] at h
  have habs : |(-(1 / 20) : ℝ)| = 1 / 20 := by
    rw [abs_of_nonpos (by norm_num)]
    norm_num
  rw [habs] at h
  have h1 := h.1
  have h2 := h.2
  constructor <;> nlinarith [h1, h2]

theorem gauss_lb_poly (t : ℝ) (ht : t ^ 2 ≤ 2) :
    1 - t ^ 2 / 2 + t ^ 4 / 8 - t ^ 6 / 48 - 5 * t ^ 8 / 1536 ≤ gauss t := by
  have habs : |(-t ^ 2 / 2 : ℝ)| = t ^ 2 / 2 := by
    rw [abs_of_nonpos (by nlinarith [sq_nonneg t])]
    ring
  have h := exp_approx (-t ^ 2 / 2) (by rw [habs]; linarith)
  rw [abs_le, habs] at h
  have h1 := h.1
  have e1 : ((t ^ 2 / 2) ^ 4 * (5 / 96) : ℝ) = 5 * t ^ 8 / 1536 := by ring
  have e2 : (1 + -t ^ 2 / 2 + (-t ^ 2 / 2) ^ 2 / 2 + (-t ^ 2 / 2) ^ 3 / 6 : ℝ)
      = 1 - t ^ 2 / 2 + t ^ 4 / 8 - t ^ 6 / 48 := by ring
  unfold gauss
  linarith [h1, e1.ge, e1.le, e2.ge, e2.le]

theorem gauss_ub_poly (t : ℝ) (ht : t ^ 2 ≤ 2) :
    gauss t ≤ 1 - t ^ 2 / 2 + t ^ 4 / 8 - t ^ 6 / 48 + 5 * t ^ 8 / 1536 := by
  have habs : |(-t ^ 2 / 2 : ℝ)| = t ^ 2 / 2 := by
    rw [abs_of_nonpos (by nlinarith [sq_nonneg t])]
    ring
  have h := exp_approx (-t ^ 2 / 2) (by rw [habs]; linarith)
  rw [abs_le, habs] at h
  have h2 := h.2
  have e1 : ((t ^ 2 / 2) ^ 4 * (5 / 96) : ℝ) = 5 * t ^ 8 / 1536 := by ring
  have e2 : (1 + -t ^ 2 / 2 + (-t ^ 2 / 2) ^ 2 / 2 + (-t ^ 2 / 2) ^ 3 / 6 : ℝ)
      = 1 - t ^ 2 / 2 + t ^ 4 / 8 - t ^ 6 / 48 := by ring
  unfold gauss
  linarith [h2, e1.ge, e1.le, e2.ge, e2.le]

theorem hasDerivAt_gaussPolyPrim (t : ℝ) :
    HasDerivAt (fun u : ℝ => u - u ^ 3 / 6 + u ^ 5 / 40 - u ^ 7 / 336)
      (1 - t ^ 2 / 2 + t ^ 4 / 8 - t ^ 6 / 48) t := by
  have h3 := (hasDerivAt_pow 3 t).div_const 6
  have h5 := (hasDerivAt_pow 5 t).div_const 40
  have h7 := (hasDerivAt_pow 7 t).div_const 336
  have h := (((hasDerivAt_id t).sub h3).add h5).sub h7
  convert h using 1
  push_cast
  ring

theorem hasDerivAt_gaussPolyTail (t : ℝ) :
    HasDerivAt (fun u : ℝ => 5 * u ^ 9 / 13824) (5 * t ^ 8 / 1536) t := by
  have h9 := ((hasDerivAt_pow 9 t).const_mul (5 : ℝ)).div_const 13824
  convert h9 using 1
  push_cast
  ring

theorem integral_gauss_poly_lb (x : ℝ) :
    (∫ t in (0 : ℝ)..x,
        (1 - t ^ 2 / 2 + t ^ 4 / 8 - t ^ 6 / 48 - 5 * t ^ 8 / 1536))
      = x - x ^ 3 / 6 + x ^ 5 / 40 - x ^ 7 / 336 - 5 * x ^ 9 / 13824 := by
  have hderiv : ∀ t ∈ uIcc (0 : ℝ) x,
      HasDerivAt (fun u : ℝ => u - u ^ 3 / 6 + u ^ 5 / 40 - u ^ 7 / 336 -
        5 * u ^ 9 / 13824)
        (1 - t ^ 2 / 2 + t ^ 4 / 8 - t ^ 6 / 48 - 5 * t ^ 8 / 1536) t :=
    fun t _ => (hasDerivAt_gaussPolyPrim t).sub (hasDerivAt_gaussPolyTail t)
  have hint : IntervalIntegrable
      (fun t : ℝ => 1 - t ^ 2 / 2 + t ^ 4 / 8 - t ^ 6 / 48 - 5 * t ^ 8 / 1536)
      volume 0 x :=
    (Continuous.intervalIntegrable (by fun_prop) 0 x)
  rw [intervalIntegral.integral_eq_sub_of_hasDerivAt hderiv hint]
  norm_num

theorem integral_gauss_poly_ub (x : ℝ) :
    (∫ t in (0 : ℝ)..x,
        (1 - t ^ 2 / 2 + t ^ 4 / 8 - t ^ 6 / 48 + 5 * t ^ 8 / 1536))
      = x - x ^ 3 / 6 + x ^ 5 / 40 - x ^ 7 / 336 + 5 * x ^ 9 / 13824 := by
  have hderiv : ∀ t ∈ uIcc (0 : ℝ) x,
      HasDerivAt (fun u : ℝ => u - u ^ 3 / 6 + u ^ 5 / 40 - u ^ 7 / 336 +
        5 * u ^ 9 / 13824)
        (1 - t ^ 2 / 2 + t ^ 4 / 8 - t ^ 6 / 48 + 5 * t ^ 8 / 1536) t :=
    fun t _ => (hasDerivAt_gaussPolyPrim t).add (hasDerivAt_gaussPolyTail t)
  have hint : IntervalIntegrable
      (fun t : ℝ => 1 - t ^ 2 / 2 + t ^ 4 / 8 - t ^ 6 / 48 + 5 * t ^ 8 / 1536)
      volume 0 x :=
    (Continuous.intervalIntegrable (by fun_prop) 0 x)
  rw [intervalIntegral.integral_eq_sub_of_hasDerivAt hderiv hint]
  norm_num

theorem integral_gauss_lb (x : ℝ) (hx : 0 ≤ x) (hx2 : x ^ 2 ≤ 2) :
    x - x ^ 3 / 6 + x ^ 5 / 40 - x ^ 7 / 336 - 5 * x ^ 9 / 13824
      ≤ ∫ t in (0 : ℝ)..x, gauss t := by
  rw [← integral_gauss_poly_lb x]
  refine intervalIntegral.integral_mono_on hx
    (Continuous.intervalIntegrable (by fun_prop) 0 x)
    (continuous_gauss.intervalIntegrable 0 x) fun t ht => ?_
  have ht1 : 0 ≤ t := ht.1
  have ht2 : t ≤ x := ht.2
  exact gauss_lb_poly t (by nlinarith)

theorem integral_gauss_ub (x : ℝ) (hx : 0 ≤ x) (hx2 : x ^ 2 ≤ 2) :
    (∫ t in (0 : ℝ)..x, gauss t)
      ≤ x - x ^ 3 / 6 + x ^ 5 / 40 - x ^ 7 / 336 + 5 * x ^ 9 / 13824 := by
  rw [← integral_gauss_poly_ub x]
  refine intervalIntegral.integral_mono_on hx
    (continuous_gauss.intervalIntegrable 0 x)
    (Continuous.intervalIntegrable (by fun_prop) 0 x) fun t ht => ?_
  have ht1 : 0 ≤ t := ht.1
  have ht2 : t ≤ x := ht.2
  exact gauss_ub_poly t (by nlinarith)

theorem normCdf_7_20_bounds :
    (0.63682 : ℝ) ≤ normCdf (7 / 20) ∧ normCdf (7 / 20) ≤ (0.63684 : ℝ) := by
  have hI_lo := integral_gauss_lb (7 / 20) (by norm_num) (by norm_num)
  have hI_hi := integral_gauss_ub (7 / 20) (by norm_num) (by norm_num)
  have hs_lo := sqrt_two_pi_lb
  have hs_hi := sqrt_two_pi_ub
  have hs_pos := sqrt_two_pi_pos
  rw [normCdf_eq_interval]
  constructor
  · have key : (0.13682 : ℝ) * Real.sqrt (2 * π)
        ≤ ∫ t in (0 : ℝ)..(7 / 20 : ℝ), gauss t := by nlinarith [hI_lo, hs_hi]
    have hdiv : (0.13682 : ℝ) ≤ (∫ t in (0 : ℝ)..(7 / 20 : ℝ), gauss t) /
        Real.sqrt (2 * π) := (le_div_iff₀ hs_pos).mpr key
    rw [inv_mul_eq_div]
    linarith
  · have key : (∫ t in (0 : ℝ)..(7 / 20 : ℝ), gauss t)
        ≤ (0.13684 : ℝ) * Real.sqrt (2 * π) := by nlinarith [hI_hi, hs_lo]
    have hdiv : (∫ t in (0 : ℝ)..(7 / 20 : ℝ), gauss t) / Real.sqrt (2 * π)
        ≤ (0.13684 : ℝ) := (div_le_iff₀ hs_pos).mpr key
    rw [inv_mul_eq_div]
    linarith

theorem normCdf_3_20_bounds :
    (0.55961 : ℝ) ≤ normCdf (3 / 20) ∧ normCdf (3 / 20) ≤ (0.55963 : ℝ) := by
  have hI_lo := integral_gauss_lb (3 / 20) (by norm_num) (by norm_num)
  have hI_hi := integral_gauss_ub (3 / 20) (by norm_num) (by norm_num)
  have hs_lo := sqrt_two_pi_lb
  have hs_hi := sqrt_two_pi_ub
  have hs_pos := sqrt_two_pi_pos
  rw [normCdf_eq_interval]
  constructor
  · have key : (0.05961 : ℝ) * Real.sqrt (2 * π)
        ≤ ∫ t in (0 : ℝ)..(3 / 20 : ℝ), gauss t := by nlinarith [hI_lo, hs_hi]
    have hdiv : (0.05961 : ℝ) ≤ (∫ t in (0 : ℝ)..(3 / 20 : ℝ), gauss t) /
        Real.sqrt (2 * π) := (le_div_iff₀ hs_pos).mpr key
    rw [inv_mul_eq_div]
    linarith
  · have key : (∫ t in (0 : ℝ)..(3 / 20 : ℝ), gauss t)
        ≤ (0.05963 : ℝ) * Real.sqrt (2 * π) := by nlinarith [hI_hi, hs_lo]
    have hdiv : (∫ t in (0 : ℝ)..(3 / 20 : ℝ), gauss t) / Real.sqrt (2 * π)
        ≤ (0.05963 : ℝ) := (div_le_iff₀ hs_pos).mpr key
    rw [inv_mul_eq_div]
    linarith

theorem spec_d1_concrete : spec_d1 100 100 1 (1 / 20) (1 / 5) = 7 / 20 := by
  unfold spec_d1
  rw [show (100 : ℝ) / 100 = 1 by norm_num, Real.log_one, Real.sqrt_one]
  norm_num

theorem spec_d2_concrete : spec_d2 100 100 1 (1 / 20) (1 / 5) = 3 / 20 := by
  unfold spec_d2
  rw [spec_d1_concrete, Real.sqrt_one]
  norm_num

theorem spec_call_100_tight :
    (10.448 : ℝ) ≤ spec_call 100 100 1 (1 / 20) (1 / 5) ∧
      spec_call 100 100 1 (1 / 20) (1 / 5) ≤ (10.453 : ℝ) := by
  have h1 := normCdf_7_20_bounds
  have h2 := normCdf_3_20_bounds
  have h3 := exp_neg_twentieth_bounds
  unfold spec_call
  rw [spec_d1_concrete, spec_d2_concrete,
    show (-(1 / 20 : ℝ) * 1) = -(1 / 20) by norm_num]
  have hEΦ_ub : Real.exp (-(1 / 20)) * normCdf (3 / 20)
      ≤ (0.951230 : ℝ) * (0.55963 : ℝ) :=
    mul_le_mul h3.2 h2.2 (normCdf_nonneg _) (by norm_num)
  have hEΦ_lb : (0.951228 : ℝ) * (0.55961 : ℝ)
      ≤ Real.exp (-(1 / 20)) * normCdf (3 / 20) :=
    mul_le_mul h3.1 h2.1 (by norm_num) (Real.exp_pos _).le
  constructor <;> nlinarith [h1.1, h1.2, hEΦ_ub, hEΦ_lb]

theorem spec_put_100_tight :
    (5.56 : ℝ) ≤ spec_put 100 100 1 (1 / 20) (1 / 5) ∧
      spec_put 100 100 1 (1 / 20) (1 / 5) ≤ (5.58 : ℝ) := by
  have hpar := spec_parity 100 100 1 (1 / 20) (1 / 5)
  have hcall := spec_call_100_tight
  have h3 := exp_neg_twentieth_bounds
  rw [show (-(1 / 20 : ℝ) * 1) = -(1 / 20) by norm_num] at hpar
  constructor <;> nlinarith [hcall.1, hcall.2, h3.1, h3.2]

/-! ### Scale invariance helpers -/

theorem spec_d1_scale (l S K T r σ : ℝ) (hl : l ≠ 0) :
    spec_d1 (l * S) (l * K) T r σ = spec_d1 S K T r σ := by
  unfold spec_d1
  rw [mul_div_mul_left S K hl]

theorem spec_d2_scale (l S K T r σ : ℝ) (hl : l ≠ 0) :
    spec_d2 (l * S) (l * K) T r σ = spec_d2 S K T r σ := by
  unfold spec_d2
  rw [spec_d1_scale l S K T r σ hl]

theorem spec_call_scale (l S K T r σ : ℝ) (hl : l ≠ 0) :
    spec_call (l * S) (l * K) T r σ = l * spec_call S K T r σ := by
  unfold spec_call
  rw [spec_d1_scale l S K T r σ hl, spec_d2_scale l S K T r σ hl]
  ring

theorem spec_put_scale (l S K T r σ : ℝ) (hl : l ≠ 0) :
    spec_put (l * S) (l * K) T r σ = l * spec_put S K T r σ := by
  unfold spec_put
  rw [spec_d1_scale l S K T r σ hl, spec_d2_scale l S K T r σ hl]
  ring

theorem spec_d1_neg_concrete : spec_d1 (-100) (-100) 1 (1 / 20) (1 / 5) = 7 / 20 := by
  unfold spec_d1
  rw [show ((-100) : ℝ) / (-100) = 1 by norm_num, Real.log_one, Real.sqrt_one]
  norm_num

theorem spec_d2_neg_concrete : spec_d2 (-100) (-100) 1 (1 / 20) (1 / 5) = 3 / 20 := by
  unfold spec_d2
  rw [spec_d1_neg_concrete, Real.sqrt_one]
  norm_num

/-! ### The claims -/

/-- Claim C1: for every input with `S>0`, `K>0`, `T>0`, `σ>0`,
`calculate_call_option_price` returns `S·Φ(d1) − K·e^(−rT)·Φ(d2)` and
`calculate_put_option_price` returns `K·e^(−rT)·Φ(−d2) − S·Φ(−d1)`, with
`d1 = (ln(S/K) + (r + σ²/2)·T)/(σ·√T)` and `d2 = d1 − σ·√T`. -/
theorem C1_price_formulas (S K T r σ : ℝ) (hS : 0 < S) (hK : 0 < K) (hT : 0 < T)
    (hσ : 0 < σ) :
    calculate_call_option_price S K T r σ = Except.ok (spec_call S K T r σ) ∧
      calculate_put_option_price S K T r σ = Except.ok (spec_put S K T r σ) :=
  ⟨call_eval S K T r σ hS hK hT hσ, put_eval S K T r σ hS hK hT hσ⟩

/-- Witness for C1 at `S=100, K=100, T=1, r=1/20, σ=1/5`. -/
theorem C1_price_formulas_witness :
    calculate_call_option_price 100 100 1 (1 / 20) (1 / 5)
        = Except.ok (spec_call 100 100 1 (1 / 20) (1 / 5)) ∧
      calculate_put_option_price 100 100 1 (1 / 20) (1 / 5)
        = Except.ok (spec_put 100 100 1 (1 / 20) (1 / 5)) :=
  C1_price_formulas 100 100 1 (1 / 20) (1 / 5) (by norm_num) (by norm_num)
    (by norm_num) (by norm_num)

/-- Claim C2: put-call parity. For every valid input, the values returned by
the two pricing functions satisfy `call − put = S − K·e^(−rT)` exactly in
real arithmetic. -/
theorem C2_put_call_parity (S K T r σ : ℝ) (hS : 0 < S) (hK : 0 < K)
    (hT : 0 < T) (hσ : 0 < σ) (c p : ℝ)
    (hc : calculate_call_option_price S K T r σ = Except.ok c)
    (hp : calculate_put_option_price S K T r σ = Except.ok p) :
    c - p = S - K * Real.exp (-r * T) := by
  have hcc : spec_call S K T r σ = c :=
    Except.ok.inj ((call_eval S K T r σ hS hK hT hσ).symm.trans hc)
  have hpp : spec_put S K T r σ = p :=
    Except.ok.inj ((put_eval S K T r σ hS hK hT hσ).symm.trans hp)
  rw [← hcc, ← hpp]
  exact spec_parity S K T r σ

/-- Witness for C2 at `S=100, K=100, T=1, r=1/20, σ=1/5`. -/
theorem C2_put_call_parity_witness :
    spec_call 100 100 1 (1 / 20) (1 / 5) - spec_put 100 100 1 (1 / 20) (1 / 5)
      = 100 - 100 * Real.exp (-(1 / 20) * 1) :=
  C2_put_call_parity 100 100 1 (1 / 20) (1 / 5) (by norm_num) (by norm_num)
    (by norm_num) (by norm_num)
    (spec_call 100 100 1 (1 / 20) (1 / 5)) (spec_put 100 100 1 (1 / 20) (1 / 5))
    (call_eval 100 100 1 (1 / 20) (1 / 5) (by norm_num) (by norm_num) (by norm_num)
      (by norm_num))
    (put_eval 100 100 1 (1 / 20) (1 / 5) (by norm_num) (by norm_num) (by norm_num)
      (by norm_num))

/-- Claim C3: concrete reference scenario. With `S=100, K=100, T=1, r=0.05,
σ=0.2` the call price is `10.45 ± 0.01` and the put price is `5.57 ± 0.01`. -/
theorem C3_concrete_scenario :
    calculate_call_option_price 100 100 1 (1 / 20) (1 / 5)
        = Except.ok (spec_call 100 100 1 (1 / 20) (1 / 5)) ∧
      |spec_call 100 100 1 (1 / 20) (1 / 5) - 10.45| ≤ 0.01 ∧
      calculate_put_option_price 100 100 1 (1 / 20) (1 / 5)
        = Except.ok (spec_put 100 100 1 (1 / 20) (1 / 5)) ∧
      |spec_put 100 100 1 (1 / 20) (1 / 5) - 5.57| ≤ 0.01 := by
  refine ⟨call_eval 100 100 1 (1 / 20) (1 / 5) (by norm_num) (by norm_num)
    (by norm_num) (by norm_num), ?_,
    put_eval 100 100 1 (1 / 20) (1 / 5) (by norm_num) (by norm_num) (by norm_num)
      (by norm_num), ?_⟩
  · rw [abs_le]
    constructor <;> linarith [spec_call_100_tight.1, spec_call_100_tight.2]
  · rw [abs_le]
    constructor <;> linarith [spec_put_100_tight.1, spec_put_100_tight.2]

/-- Claim C4 (failing input): at `S=100, K=100, T=0, r=1/20, σ=1/5` both
pricing functions raise an unhandled `ZeroDivisionError` from the division by
`σ·√T = 0`; no explicit `ArithmeticDegeneracy`/`InvalidInput` error exists in
the code. -/
theorem C4_T_zero_division_error :
    calculate_call_option_price 100 100 0 (1 / 20) (1 / 5)
        = Except.error PyErr.zeroDivisionError ∧
      calculate_put_option_price 100 100 0 (1 / 20) (1 / 5)
        = Except.error PyErr.zeroDivisionError := by
  have h100 : ((100 : ℝ) = 0) = False := by norm_num
  have hpos : ((0 : ℝ) < 100 / 100) = True := by norm_num
  have hT0 : ((0 : ℝ) ≤ 0) = True := by norm_num
  have hden : ((1 / 5 : ℝ) * Real.sqrt 0 = 0) = True := by
    rw [Real.sqrt_zero]
    norm_num
  constructor <;>
    simp only [calculate_call_option_price, calculate_put_option_price,
      call_d1_d2, put_d1_d2, pydiv, pylog, pysqrt, h100, hpos, hT0, hden,
      if_true, if_false, except_bind_ok, except_bind_error]

/-- Claim C5 (failing input): at `S=−100, K=−100, T=1, r=1/20, σ=1/5` both
pricing functions silently return an ordinary value — a negative "price" —
instead of failing with any error. -/
theorem C5_negative_inputs_silent :
    calculate_call_option_price (-100) (-100) 1 (1 / 20) (1 / 5)
        = Except.ok (spec_call (-100) (-100) 1 (1 / 20) (1 / 5)) ∧
      calculate_put_option_price (-100) (-100) 1 (1 / 20) (1 / 5)
        = Except.ok (spec_put (-100) (-100) 1 (1 / 20) (1 / 5)) ∧
      spec_call (-100) (-100) 1 (1 / 20) (1 / 5) < 0 := by
  have hne : (((-100) : ℝ) = 0) = False := by norm_num
  have hpos : ((0 : ℝ) < (-100) / (-100)) = True := by norm_num
  have hT1 : ((0 : ℝ) ≤ 1) = True := by norm_num
  have hden : ((1 / 5 : ℝ) * Real.sqrt 1 = 0) = False := by
    rw [Real.sqrt_one]
    norm_num
  refine ⟨?_, ?_, ?_⟩
  · simp only [calculate_call_option_price, call_d1_d2, pydiv, pylog, pysqrt,
      hne, hpos, hT1, hden, if_true, if_false, except_bind_ok, except_pure_eq_ok]
    rfl
  · simp only [calculate_put_option_price, put_d1_d2, pydiv, pylog, pysqrt,
      hne, hpos, hT1, hden, if_true, if_false, except_bind_ok, except_pure_eq_ok]
    rfl
  · have h1 := normCdf_7_20_bounds
    have h2 := normCdf_3_20_bounds
    have h3 := exp_neg_twentieth_bounds
    unfold spec_call
    rw [spec_d1_neg_concrete, spec_d2_neg_concrete,
      show (-(1 / 20 : ℝ) * 1) = -(1 / 20) by norm_num]
    have hEΦ_ub : Real.exp (-(1 / 20)) * normCdf (3 / 20)
        ≤ (0.951230 : ℝ) * (0.55963 : ℝ) :=
      mul_le_mul h3.2 h2.2 (normCdf_nonneg _) (by norm_num)
    nlinarith [h1.1, hEΦ_ub]

/-- Claim C6: with `K, T, r, σ` fixed and valid, the call price returned by
the code is non-decreasing and the put price non-increasing in the spot
price `S`. -/
theorem C6_monotonicity_in_spot (S1 S2 K T r σ : ℝ) (hK : 0 < K) (hT : 0 < T)
    (hσ : 0 < σ) (hS1 : 0 < S1) (h12 : S1 ≤ S2) (c1 c2 p1 p2 : ℝ)
    (hc1 : calculate_call_option_price S1 K T r σ = Except.ok c1)
    (hc2 : calculate_call_option_price S2 K T r σ = Except.ok c2)
    (hp1 : calculate_put_option_price S1 K T r σ = Except.ok p1)
    (hp2 : calculate_put_option_price S2 K T r σ = Except.ok p2) :
    c1 ≤ c2 ∧ p2 ≤ p1 := by
  have hS2 : 0 < S2 := lt_of_lt_of_le hS1 h12
  have e1 : spec_call S1 K T r σ = c1 :=
    Except.ok.inj ((call_eval S1 K T r σ hS1 hK hT hσ).symm.trans hc1)
  have e2 : spec_call S2 K T r σ = c2 :=
    Except.ok.inj ((call_eval S2 K T r σ hS2 hK hT hσ).symm.trans hc2)
  have e3 : spec_put S1 K T r σ = p1 :=
    Except.ok.inj ((put_eval S1 K T r σ hS1 hK hT hσ).symm.trans hp1)
  have e4 : spec_put S2 K T r σ = p2 :=
    Except.ok.inj ((put_eval S2 K T r σ hS2 hK hT hσ).symm.trans hp2)
  rw [← e1, ← e2, ← e3, ← e4]
  exact ⟨spec_call_mono S1 S2 K T r σ hK hT hσ hS1 h12,
    spec_put_antitone S1 S2 K T r σ hK hT hσ hS1 h12⟩

/-- Witness for C6 at `S1=1, S2=2, K=T=σ=1, r=0`. -/
theorem C6_monotonicity_in_spot_witness :
    spec_call 1 1 1 0 1 ≤ spec_call 2 1 1 0 1 ∧
      spec_put 2 1 1 0 1 ≤ spec_put 1 1 1 0 1 :=
  C6_monotonicity_in_spot 1 2 1 1 0 1 (by norm_num) (by norm_num) (by norm_num)
    (by norm_num) (by norm_num)
    (spec_call 1 1 1 0 1) (spec_call 2 1 1 0 1)
    (spec_put 1 1 1 0 1) (spec_put 2 1 1 0 1)
    (call_eval 1 1 1 0 1 (by norm_num) (by norm_num) (by norm_num) (by norm_num))
    (call_eval 2 1 1 0 1 (by norm_num) (by norm_num) (by norm_num) (by norm_num))
    (put_eval 1 1 1 0 1 (by norm_num) (by norm_num) (by norm_num) (by norm_num))
    (put_eval 2 1 1 0 1 (by norm_num) (by norm_num) (by norm_num) (by norm_num))

/-- Claim C7: for every valid input, both prices returned by the code are
non-negative in exact real arithmetic. -/
theorem C7_nonnegative_prices (S K T r σ : ℝ) (hS : 0 < S) (hK : 0 < K)
    (hT : 0 < T) (hσ : 0 < σ) (c p : ℝ)
    (hc : calculate_call_option_price S K T r σ = Except.ok c)
    (hp : calculate_put_option_price S K T r σ = Except.ok p) :
    0 ≤ c ∧ 0 ≤ p := by
  have e1 : spec_call S K T r σ = c :=
    Except.ok.inj ((call_eval S K T r σ hS hK hT hσ).symm.trans hc)
  have e2 : spec_put S K T r σ = p :=
    Except.ok.inj ((put_eval S K T r σ hS hK hT hσ).symm.trans hp)
  rw [← e1, ← e2]
  exact ⟨spec_call_nonneg S K T r σ hS hK hT hσ,
    spec_put_nonneg S K T r σ hS hK hT hσ⟩

/-- Witness for C7 at `S=100, K=100, T=1, r=1/20, σ=1/5`. -/
theorem C7_nonnegative_prices_witness :
    0 ≤ spec_call 100 100 1 (1 / 20) (1 / 5) ∧
      0 ≤ spec_put 100 100 1 (1 / 20) (1 / 5) :=
  C7_nonnegative_prices 100 100 1 (1 / 20) (1 / 5) (by norm_num) (by norm_num)
    (by norm_num) (by norm_num)
    (spec_call 100 100 1 (1 / 20) (1 / 5)) (spec_put 100 100 1 (1 / 20) (1 / 5))
    (call_eval 100 100 1 (1 / 20) (1 / 5) (by norm_num) (by norm_num) (by norm_num)
      (by norm_num))
    (put_eval 100 100 1 (1 / 20) (1 / 5) (by norm_num) (by norm_num) (by norm_num)
      (by norm_num))

/-- Claim C8: determinism — two calls with identical inputs yield identical
outputs; the embedded functions are pure functions of their five arguments. -/
theorem C8_determinism (S K T r σ S' K' T' r' σ' : ℝ) (h1 : S = S') (h2 : K = K')
    (h3 : T = T') (h4 : r = r') (h5 : σ = σ') :
    calculate_call_option_price S K T r σ
        = calculate_call_option_price S' K' T' r' σ' ∧
      calculate_put_option_price S K T r σ
        = calculate_put_option_price S' K' T' r' σ' := by
  subst h1 h2 h3 h4 h5
  exact ⟨rfl, rfl⟩

/-- Witness for C8 at `S=100, K=90, T=1, r=1/20, σ=1/5`. -/
theorem C8_determinism_witness :
    calculate_call_option_price 100 90 1 (1 / 20) (1 / 5)
        = calculate_call_option_price 100 90 1 (1 / 20) (1 / 5) ∧
      calculate_put_option_price 100 90 1 (1 / 20) (1 / 5)
        = calculate_put_option_price 100 90 1 (1 / 20) (1 / 5) :=
  C8_determinism 100 90 1 (1 / 20) (1 / 5) 100 90 1 (1 / 20) (1 / 5)
    rfl rfl rfl rfl rfl

/-- Claim C9: the duplicated `d1`/`d2` blocks inside the call and put
functions are extensionally equal functions of the five inputs. -/
theorem C9_shared_d1_d2 (S K T r σ : ℝ) :
    call_d1_d2 S K T r σ = put_d1_d2 S K T r σ := rfl

/-- Claim C10: positive homogeneity of degree one — scaling `S` and `K` by
`l > 0` scales both prices by `l`. -/
theorem C10_homogeneity (l S K T r σ : ℝ) (hl : 0 < l) (hS : 0 < S) (hK : 0 < K)
    (hT : 0 < T) (hσ : 0 < σ) :
    calculate_call_option_price (l * S) (l * K) T r σ
        = Except.ok (l * spec_call S K T r σ) ∧
      calculate_call_option_price S K T r σ = Except.ok (spec_call S K T r σ) ∧
      calculate_put_option_price (l * S) (l * K) T r σ
        = Except.ok (l * spec_put S K T r σ) ∧
      calculate_put_option_price S K T r σ = Except.ok (spec_put S K T r σ) := by
  refine ⟨?_, call_eval S K T r σ hS hK hT hσ, ?_, put_eval S K T r σ hS hK hT hσ⟩
  · rw [call_eval (l * S) (l * K) T r σ (mul_pos hl hS) (mul_pos hl hK) hT hσ,
      spec_call_scale l S K T r σ hl.ne']
  · rw [put_eval (l * S) (l * K) T r σ (mul_pos hl hS) (mul_pos hl hK) hT hσ,
      spec_put_scale l S K T r σ hl.ne']

/-- Witness for C10 at `l=2, S=1, K=1, T=1, r=0, σ=1`. -/
theorem C10_homogeneity_witness :
    calculate_call_option_price (2 * 1) (2 * 1) 1 0 1
        = Except.ok (2 * spec_call 1 1 1 0 1) ∧
      calculate_call_option_price 1 1 1 0 1 = Except.ok (spec_call 1 1 1 0 1) ∧
      calculate_put_option_price (2 * 1) (2 * 1) 1 0 1
        = Except.ok (2 * spec_put 1 1 1 0 1) ∧
      calculate_put_option_price 1 1 1 0 1 = Except.ok (spec_put 1 1 1 0 1) :=
  C10_homogeneity 2 1 1 1 0 1 (by norm_num) (by norm_num) (by norm_num)
    (by norm_num) (by norm_num)

end BlackScholes
